import Mathlib

/-!
Verification of the ELF decoder core (package file, function NewFile and the
Section content accessors) against its natural-language specification.

The byte source is modelled as a finite random-access array of bytes; every
struct read performed through binary.Read is all-or-nothing, exactly as in the
Go io.SectionReader / binary.Read semantics.  Machine integers are modelled as
Nat, with the int64 reinterpretation made explicit through wrap64.  A failed
decode (return nil in the source) is NFOut.fail; a Go runtime panic (index out
of range, read through a nil reader, make with a negative length) is
NFOut.crash, so that clean rejection and crashes stay distinguishable.
-/

namespace ElfFile

/-- Byte order selected from the identification data byte
(binary.LittleEndian or binary.BigEndian). -/
inductive ByteOrder where
  | lsb
  | msb
deriving DecidableEq

/-- A finite random-access byte source, the io.ReaderAt handed to NewFile.
Reads at offsets below size succeed and return byteAt; any read reaching
past size fails (io.EOF / io.ErrUnexpectedEOF). -/
structure ByteSource where
  size : Nat
  byteAt : Nat → Nat

/-- Build a byte source from a concrete list of bytes. -/
def ByteSource.ofList (l : List Nat) : ByteSource :=
  { size := l.length, byteAt := fun i => l.getD i 0 }

/-- Little-endian value of n bytes starting at off. -/
def leVal (src : ByteSource) (off : Nat) : Nat → Nat
  | 0 => 0
  | n + 1 => src.byteAt off % 256 + 256 * leVal src (off + 1) n

/-- Big-endian value of n bytes starting at off. -/
def beVal (src : ByteSource) (off : Nat) : Nat → Nat
  | 0 => 0
  | n + 1 => src.byteAt off % 256 * 256 ^ n + beVal src (off + 1) n

/-- Unsigned field of n bytes at offset off in the given byte order. -/
def readU (src : ByteSource) (bo : ByteOrder) (off n : Nat) : Nat :=
  match bo with
  | .lsb => leVal src off n
  | .msb => beVal src off n

/-- Reinterpretation of a 64-bit quantity as a signed int64, with wrap-around;
this is Go conversion int64(x) for a uint64 x, and is the identity on values
below 2 ^ 63. -/
def wrap64 (n : Int) : Int :=
  (n + 2 ^ 63) % 2 ^ 64 - 2 ^ 63

/-- FileHeader as retained in the File aggregate (identification plus the
header fields that are kept). -/
structure FileHeader where
  eClass : Nat
  data : Nat
  version : Nat
  osabi : Nat
  abiVersion : Nat
  byteOrder : ByteOrder
  typ : Nat
  machine : Nat
  entry : Nat
deriving DecidableEq

/-- The decoded file header together with the transient table descriptors
(the locals phoff, phentsize, phnum, shoff, shentsize, shnum, shstrndx of
NewFile) and the reader position left after the header read. -/
structure Hdr where
  fh : FileHeader
  phoff : Int
  phentsize : Nat
  phnum : Nat
  shoff : Int
  shentsize : Nat
  shnum : Nat
  shstrndx : Nat
  pos : Int
deriving DecidableEq

/-- A decoded program header, normalized to 64-bit fields. -/
structure ProgHeader where
  typ : Nat
  flags : Nat
  off : Nat
  vaddr : Nat
  paddr : Nat
  filesz : Nat
  memsz : Nat
  align : Nat
deriving DecidableEq

/-- Raw section header entry as read from disk (elf.Section32 / elf.Section64
normalized to Nat fields). -/
structure RawSec where
  name : Nat
  typ : Nat
  flags : Nat
  addr : Nat
  off : Nat
  size : Nat
  link : Nat
  info : Nat
  addralign : Nat
  entsize : Nat
deriving DecidableEq

/-- Decoded compression header (elf.Chdr32 / elf.Chdr64). -/
structure Chdr where
  typ : Nat
  size : Nat
  addralign : Nat
deriving DecidableEq

/-- A decoded Section: the SectionHeader fields plus the private compression
descriptor.  The section reader sr spans the byte range
[offset, offset + fileSize) of the original source, as set by NewFile. -/
structure Section where
  name : List Nat
  typ : Nat
  flags : Nat
  addr : Nat
  offset : Nat
  size : Nat
  fileSize : Nat
  link : Nat
  info : Nat
  addralign : Nat
  entsize : Nat
  compressionType : Nat
  compressionOffset : Int
deriving DecidableEq

/-- The File aggregate produced by NewFile. -/
structure File where
  fh : FileHeader
  progs : List ProgHeader
  sections : List Section
deriving DecidableEq

/-- Outcome of NewFile: a File, the nil return, or a runtime panic. -/
inductive NFOut where
  | ok (f : File)
  | fail
  | crash
deriving DecidableEq

/-- True when the outcome is a populated File. -/
def NFOut.isOk : NFOut → Bool
  | .ok _ => true
  | _ => false

/-- First decoded section of an ok outcome, if any. -/
def NFOut.headSection : NFOut → Option Section
  | .ok f => f.sections.head?
  | _ => none

/-- Outcome of Section.Data: a byte buffer, or a runtime panic. -/
inductive DataOut where
  | ok (bytes : List Nat)
  | crash
deriving DecidableEq

/-- The read-seeker returned by Section.Open: the sectioned zero reader for
no-bits sections, the raw range reader for uncompressed sections, or the
lazily-reset zlib stream for zlib-compressed sections. -/
inductive Reader where
  | zero (limit : Int)
  | raw (off len : Int)
  | zlibr (off len : Int) (compOff : Int)
deriving DecidableEq

/-- Expected program header entry size for the width class (8*4 bytes for
ELFCLASS32, 2*4+6*8 for ELFCLASS64). -/
def wantPhentsize (cls : Nat) : Nat := if cls = 1 then 32 else 56

/-- Expected section header entry size for the width class (10*4 bytes for
ELFCLASS32, 4*4+6*8 for ELFCLASS64). -/
def wantShentsize (cls : Nat) : Nat := if cls = 1 then 40 else 64

/-- Byte size of a program header entry for the width class. -/
def progSize (cls : Nat) : Nat := if cls = 1 then 32 else 56

/-- Byte size of a section header entry for the width class. -/
def secSize (cls : Nat) : Nat := if cls = 1 then 40 else 64

/-- Byte size of the compression header for the width class
(binary.Size of elf.Chdr32 / elf.Chdr64). -/
def chSize (cls : Nat) : Nat := if cls = 1 then 12 else 24

/-- Identification block and file header decode: the ReadAt of the 16
identification bytes, the magic / class / data / version checks, and the
binary.Read of elf.Header32 or elf.Header64 with its embedded version check.
Mirrors NewFile lines 194 through 275. -/
def parseHeader (src : ByteSource) : Option Hdr :=
  if src.size < 16 then none
  else if ¬(src.byteAt 0 % 256 = 127 ∧ src.byteAt 1 % 256 = 69 ∧
            src.byteAt 2 % 256 = 76 ∧ src.byteAt 3 % 256 = 70) then none
  else
    let cls := src.byteAt 4 % 256
    if ¬(cls = 1 ∨ cls = 2) then none
    else
      let dat := src.byteAt 5 % 256
      if ¬(dat = 1 ∨ dat = 2) then none
      else
        let bo : ByteOrder := if dat = 1 then .lsb else .msb
        if src.byteAt 6 % 256 ≠ 1 then none
        else
          let osabi := src.byteAt 7 % 256
          let abiv := src.byteAt 8 % 256
          if cls = 1 then
            if src.size < 52 then none
            else if readU src bo 20 4 ≠ 1 then none
            else some
              { fh := { eClass := 1, data := dat, version := 1, osabi := osabi,
                        abiVersion := abiv, byteOrder := bo,
                        typ := readU src bo 16 2, machine := readU src bo 18 2,
                        entry := readU src bo 24 4 },
                phoff := (readU src bo 28 4 : Int), phentsize := readU src bo 42 2,
                phnum := readU src bo 44 2,
                shoff := (readU src bo 32 4 : Int), shentsize := readU src bo 46 2,
                shnum := readU src bo 48 2, shstrndx := readU src bo 50 2,
                pos := 52 }
          else
            if src.size < 64 then none
            else if readU src bo 20 4 ≠ 1 then none
            else some
              { fh := { eClass := 2, data := dat, version := 1, osabi := osabi,
                        abiVersion := abiv, byteOrder := bo,
                        typ := readU src bo 16 2, machine := readU src bo 18 2,
                        entry := readU src bo 24 8 },
                phoff := wrap64 (readU src bo 32 8), phentsize := readU src bo 54 2,
                phnum := readU src bo 56 2,
                shoff := wrap64 (readU src bo 40 8), shentsize := readU src bo 58 2,
                shnum := readU src bo 60 2, shstrndx := readU src bo 62 2,
                pos := 64 }

/-- Global header consistency checks of NewFile lines 277 through 303:
non-negative table offsets, a zero section offset forces a zero section
count, the string-table index must lie inside a non-empty section table, and
a non-empty program table needs an adequate entry size. -/
def checkHeader (hdr : Hdr) : Bool :=
  if hdr.shoff < 0 then false
  else if hdr.phoff < 0 then false
  else if hdr.shoff = 0 ∧ hdr.shnum ≠ 0 then false
  else if 0 < hdr.shnum ∧ hdr.shnum ≤ hdr.shstrndx then false
  else if 0 < hdr.phnum ∧ hdr.phentsize < wantPhentsize hdr.fh.eClass then false
  else true

/-- Read one program header entry (elf.Prog32 or elf.Prog64) at an absolute
offset; all-or-nothing like binary.Read, failing on a negative offset or a
read past the source size. -/
def readProg (src : ByteSource) (bo : ByteOrder) (cls : Nat) (off : Int) :
    Option ProgHeader :=
  if 0 ≤ off ∧ off.toNat + progSize cls ≤ src.size then
    let o := off.toNat
    if cls = 1 then
      some { typ := readU src bo o 4, flags := readU src bo (o + 24) 4,
             off := readU src bo (o + 4) 4, vaddr := readU src bo (o + 8) 4,
             paddr := readU src bo (o + 12) 4, filesz := readU src bo (o + 16) 4,
             memsz := readU src bo (o + 20) 4, align := readU src bo (o + 28) 4 }
    else
      some { typ := readU src bo o 4, flags := readU src bo (o + 4) 4,
             off := readU src bo (o + 8) 8, vaddr := readU src bo (o + 16) 8,
             paddr := readU src bo (o + 24) 8, filesz := readU src bo (o + 32) 8,
             memsz := readU src bo (o + 40) 8, align := readU src bo (o + 48) 8 }
  else none

/-- Read one raw section header entry (elf.Section32 or elf.Section64) at an
absolute offset; all-or-nothing like binary.Read. -/
def readRawSec (src : ByteSource) (bo : ByteOrder) (cls : Nat) (off : Int) :
    Option RawSec :=
  if 0 ≤ off ∧ off.toNat + secSize cls ≤ src.size then
    let o := off.toNat
    if cls = 1 then
      some { name := readU src bo o 4, typ := readU src bo (o + 4) 4,
             flags := readU src bo (o + 8) 4, addr := readU src bo (o + 12) 4,
             off := readU src bo (o + 16) 4, size := readU src bo (o + 20) 4,
             link := readU src bo (o + 24) 4, info := readU src bo (o + 28) 4,
             addralign := readU src bo (o + 32) 4, entsize := readU src bo (o + 36) 4 }
    else
      some { name := readU src bo o 4, typ := readU src bo (o + 4) 4,
             flags := readU src bo (o + 8) 8, addr := readU src bo (o + 16) 8,
             off := readU src bo (o + 24) 8, size := readU src bo (o + 32) 8,
             link := readU src bo (o + 40) 4, info := readU src bo (o + 44) 4,
             addralign := readU src bo (o + 48) 8, entsize := readU src bo (o + 56) 8 }
  else none

/-- Read the compression header through the section reader
(binary.Read(s.sr, ...) at the section start): it succeeds only when the
header fits inside the section range and inside the underlying source. -/
def readChdr (src : ByteSource) (bo : ByteOrder) (cls : Nat) (off fsize : Nat) :
    Option Chdr :=
  if chSize cls ≤ fsize ∧ off + chSize cls ≤ src.size then
    if cls = 1 then
      some { typ := readU src bo off 4, size := readU src bo (off + 4) 4,
             addralign := readU src bo (off + 8) 4 }
    else
      some { typ := readU src bo off 4, size := readU src bo (off + 8) 8,
             addralign := readU src bo (off + 16) 8 }
  else none

/-- File offset of program header slot i (phoff + i*phentsize with int64
wrap-around, as computed by NewFile). -/
def progSlotOff (hdr : Hdr) (i : Nat) : Int :=
  wrap64 (hdr.phoff + wrap64 ((i : Int) * (hdr.phentsize : Int)))

/-- File offset of section header slot i (shoff + i*shentsize with int64
wrap-around, as computed by NewFile). -/
def secSlotOff (hdr : Hdr) (i : Nat) : Int :=
  wrap64 (hdr.shoff + wrap64 ((i : Int) * (hdr.shentsize : Int)))

/-- One program header slot read at the effective position rp, with the
validity checks of NewFile lines 343 through 348: an entry whose offset or
file size is negative as an int64 aborts the decode. -/
def progAt (src : ByteSource) (hdr : Hdr) (rp : Int) : Option ProgHeader :=
  match readProg src hdr.fh.byteOrder hdr.fh.eClass rp with
  | none => none
  | some ph =>
    if 2 ^ 63 ≤ ph.off then none
    else if 2 ^ 63 ≤ ph.filesz then none
    else some ph

/-- Program header table loop (NewFile lines 306 through 352).  Each slot is
sought at its computed offset; a negative computed offset makes the ignored
Seek fail, so the read then happens at the current reader position, which is
threaded through as pos. -/
def parseProgsLoop (src : ByteSource) (hdr : Hdr) :
    Nat → Nat → Int → Option (List ProgHeader × Int)
  | _, 0, pos => some ([], pos)
  | i, fuel + 1, pos =>
    let rp := if progSlotOff hdr i < 0 then pos else progSlotOff hdr i
    match progAt src hdr rp with
    | none => none
    | some ph =>
      match parseProgsLoop src hdr (i + 1) fuel (rp + (progSize hdr.fh.eClass : Int)) with
      | none => none
      | some (ps, pf) => some (ph :: ps, pf)

/-- Extended section count and extended string-table index resolution
(NewFile lines 354 through 398).  When shoff > 0 and the header shnum is 0,
section header 0 is read: its type must be the null type, its size field is
the true section count and must reach SHN_LORESERVE, and when shstrndx is
SHN_XINDEX the true string-table index is its link field, which must itself
reach SHN_LORESERVE.  Returns the resolved (shnum, shstrndx). -/
def resolveExt (src : ByteSource) (hdr : Hdr) : Option (Nat × Nat) :=
  if 0 < hdr.shoff ∧ hdr.shnum = 0 then
    match readRawSec src hdr.fh.byteOrder hdr.fh.eClass hdr.shoff with
    | none => none
    | some rs =>
      if rs.typ ≠ 0 then none
      else if wrap64 rs.size < 65280 then none
      else if hdr.shstrndx = 65535 then
        if rs.link < 65280 then none
        else some ((wrap64 rs.size).toNat, rs.link)
      else some ((wrap64 rs.size).toNat, hdr.shstrndx)
  else some (hdr.shnum, hdr.shstrndx)

/-- Reader position after the extended-count block: the section 0 read moves
the reader, otherwise the position is unchanged. -/
def posAfterExt (hdr : Hdr) (pos : Int) : Int :=
  if 0 < hdr.shoff ∧ hdr.shnum = 0 then hdr.shoff + (secSize hdr.fh.eClass : Int)
  else pos

/-- One section header slot (NewFile lines 405 through 483, loop body) read
at the effective position rp: decoding fails when the entry has an offset or
on-disk size negative as an int64.  An uncompressed entry gets logical size
equal to its on-disk size; a compressed entry has its compression header
decoded at the section start, taking logical size and alignment from it and
recording where compressed payload begins.  The raw name offset is returned
alongside. -/
def secAt (src : ByteSource) (hdr : Hdr) (rp : Int) : Option (Section × Nat) :=
  match readRawSec src hdr.fh.byteOrder hdr.fh.eClass rp with
  | none => none
  | some rs =>
    if 2 ^ 63 ≤ rs.off then none
    else if 2 ^ 63 ≤ rs.size then none
    else if rs.flags &&& 2048 = 0 then
      some ({ name := [], typ := rs.typ, flags := rs.flags, addr := rs.addr,
              offset := rs.off, size := rs.size, fileSize := rs.size,
              link := rs.link, info := rs.info, addralign := rs.addralign,
              entsize := rs.entsize, compressionType := 0, compressionOffset := 0 },
            rs.name)
    else
      match readChdr src hdr.fh.byteOrder hdr.fh.eClass rs.off rs.size with
      | none => none
      | some ch =>
        some ({ name := [], typ := rs.typ, flags := rs.flags, addr := rs.addr,
                offset := rs.off, size := ch.size, fileSize := rs.size,
                link := rs.link, info := rs.info, addralign := ch.addralign,
                entsize := rs.entsize, compressionType := ch.typ,
                compressionOffset := (chSize hdr.fh.eClass : Int) },
              rs.name)

/-- Section header table loop driver, reading slot after slot. -/
def parseSecsLoop (src : ByteSource) (hdr : Hdr) :
    Nat → Nat → Int → Option (List Section × List Nat × Int)
  | _, 0, pos => some ([], [], pos)
  | i, fuel + 1, pos =>
    let rp := if secSlotOff hdr i < 0 then pos else secSlotOff hdr i
    match secAt src hdr rp with
    | none => none
    | some (s, nm) =>
      match parseSecsLoop src hdr (i + 1) fuel (rp + (secSize hdr.fh.eClass : Int)) with
      | none => none
      | some (ss, ns, pf) => some (s :: ss, nm :: ns, pf)

/-- Everything NewFile does before name resolution: header decode and checks,
program header table, extended conventions, section entry size check, and the
section header table.  Returns the aggregate with unresolved names, the raw
name offsets, and the resolved string-table index. -/
def preNames (src : ByteSource) : Option (File × List Nat × Nat) :=
  match parseHeader src with
  | none => none
  | some hdr =>
    if checkHeader hdr = false then none
    else
      match parseProgsLoop src hdr 0 hdr.phnum hdr.pos with
      | none => none
      | some (progs, pos1) =>
        match resolveExt src hdr with
        | none => none
        | some (shnum2, ndx2) =>
          if 0 < shnum2 ∧ hdr.shentsize < wantShentsize hdr.fh.eClass then none
          else
            match parseSecsLoop src hdr 0 shnum2 (posAfterExt hdr pos1) with
            | none => none
            | some (secs, names, _) =>
              some ({ fh := hdr.fh, progs := progs, sections := secs }, names, ndx2)

/-- Modelled from the spec: the string table resolver (section 4.6 of the
spec) is code of this repository whose source file is not among the provided
files; per the spec it returns the substring up to but excluding the first
null byte, or the remainder of the blob when no null byte follows, and an
offset at or past the blob length is a resolution failure. -/
def getString (blob : List Nat) (start : Nat) : Option (List Nat) :=
  if blob.length ≤ start then none
  else some ((blob.drop start).takeWhile (fun b => b != 0))

/-- Byte stream served by the section reader range [off, off + len) of the
source: the io.SectionReader semantics, ending early at the source size. -/
def rawStream (src : ByteSource) (off len : Int) : List Nat :=
  if off < 0 then []
  else
    let start := off.toNat
    let stop := min (start + len.toNat) src.size
    (List.range (stop - start)).map (fun i => src.byteAt (start + i) % 256)

/-- Bytes obtainable by sequential reads from an open section reader.  The
zlib case is parameterized by inflate, the bytes the zlib stream yields for a
given compressed payload before returning an error or end of stream. -/
def streamBytes (inflate : List Nat → List Nat) (src : ByteSource) : Reader → List Nat
  | .zero limit => List.replicate limit.toNat 0
  | .raw off len => rawStream src off len
  | .zlibr off len compOff =>
    if compOff < 0 then []
    else inflate ((rawStream src off len).drop compOff.toNat)

/-- Section.Open (source lines 140 through 157): a sectioned zero reader for
no-bits sections, the raw range for uncompressed sections, the resettable
zlib stream for zlib-compressed sections, and nil for any other compression
format. -/
def Section.Open (s : Section) : Option Reader :=
  if s.typ = 8 then some (.zero (wrap64 s.size))
  else if s.flags &&& 2048 = 0 then some (.raw (wrap64 s.offset) (wrap64 s.fileSize))
  else if s.compressionType = 1 then
    some (.zlibr (wrap64 s.offset) (wrap64 s.fileSize) s.compressionOffset)
  else none

/-- Section.Data (source lines 131 through 135): allocate a buffer of the
logical size, read from Open, discard the error and keep the prefix read.
make with a length that is negative as an int panics; io.ReadFull on a nil
reader panics when at least one byte is requested, and reads nothing when the
buffer is empty. -/
def Section.Data (inflate : List Nat → List Nat) (src : ByteSource) (s : Section) :
    DataOut :=
  if 2 ^ 63 ≤ s.size then .crash
  else if s.size = 0 then .ok []
  else
    match s.Open with
    | none => .crash
    | some r => .ok ((streamBytes inflate src r).take s.size)

/-- Resolve every section name against the string blob, failing on the first
unresolvable offset (NewFile lines 501 through 507). -/
def setNames (blob : List Nat) : List Section → List Nat → Option (List Section)
  | [], _ => some []
  | _ :: _, [] => none
  | s :: ss, n :: ns =>
    match getString blob n with
    | none => none
    | some nm =>
      match setNames blob ss ns with
      | none => none
      | some rest => some ({ s with name := nm } :: rest)

/-- Name resolution tail of NewFile (lines 485 through 509): an empty section
list or string-table index 0 succeed as is; otherwise the section at the
index is fetched (a Go index panic when out of range), must be a string
table, its content is read in full through Section.Data, and every name is
resolved against it. -/
def finishNames (inflate : List Nat → List Nat) (src : ByteSource) (f : File)
    (names : List Nat) (ndx : Nat) : NFOut :=
  if f.sections.length = 0 then .ok f
  else if ndx = 0 then .ok f
  else
    match f.sections.get? ndx with
    | none => .crash
    | some shstr =>
      if shstr.typ ≠ 3 then .fail
      else
        match Section.Data inflate src shstr with
        | .crash => .crash
        | .ok blob =>
          match setNames blob f.sections names with
          | none => .fail
          | some secs2 => .ok { f with sections := secs2 }

/-- NewFile (source lines 192 through 510): the whole decode, parameterized
by the zlib stream semantics. -/
def NewFile (inflate : List Nat → List Nat) (src : ByteSource) : NFOut :=
  match preNames src with
  | none => .fail
  | some (f, names, ndx) => finishNames inflate src f names ndx

/-- Little-endian encoding of a 16-bit value. -/
def u16le (n : Nat) : List Nat := [n % 256, n / 256 % 256]

/-- Little-endian encoding of a 32-bit value. -/
def u32le (n : Nat) : List Nat :=
  [n % 256, n / 256 % 256, n / 65536 % 256, n / 16777216 % 256]

/-- Little-endian encoding of a 64-bit value. -/
def u64le (n : Nat) : List Nat := u32le (n % 4294967296) ++ u32le (n / 4294967296)

/-- A little-endian ELFCLASS32 file header with the given table descriptors
(type 2, machine 3, version 1, zero entry point and flags). -/
def elfHdr32 (phoff phnum phentsize shoff shentsize shnum shstrndx : Nat) : List Nat :=
  [127, 69, 76, 70, 1, 1, 1, 0, 0, 0, 0, 0, 0, 0, 0, 0] ++
  u16le 2 ++ u16le 3 ++ u32le 1 ++ u32le 0 ++ u32le phoff ++ u32le shoff ++
  u32le 0 ++ u16le 52 ++ u16le phentsize ++ u16le phnum ++ u16le shentsize ++
  u16le shnum ++ u16le shstrndx

/-- A little-endian ELFCLASS64 file header with the given table descriptors
(type 2, machine 62, version 1, zero entry point and flags). -/
def elfHdr64 (phoff phnum phentsize shoff shentsize shnum shstrndx : Nat) : List Nat :=
  [127, 69, 76, 70, 2, 1, 1, 0, 0, 0, 0, 0, 0, 0, 0, 0] ++
  u16le 2 ++ u16le 62 ++ u32le 1 ++ u64le 0 ++ u64le phoff ++ u64le shoff ++
  u32le 0 ++ u16le 64 ++ u16le phentsize ++ u16le phnum ++ u16le shentsize ++
  u16le shnum ++ u16le shstrndx

/-- A little-endian 32-bit section header entry. -/
def sec32 (name typ flags addr off size link info addralign entsize : Nat) : List Nat :=
  u32le name ++ u32le typ ++ u32le flags ++ u32le addr ++ u32le off ++
  u32le size ++ u32le link ++ u32le info ++ u32le addralign ++ u32le entsize

/-- A little-endian 64-bit program header entry. -/
def prog64 (typ flags off vaddr paddr filesz memsz align : Nat) : List Nat :=
  u32le typ ++ u32le flags ++ u64le off ++ u64le vaddr ++ u64le paddr ++
  u64le filesz ++ u64le memsz ++ u64le align

/-- The trivial zlib stream semantics used by the concrete test inputs: no
byte is ever produced (every payload is treated as immediately failing). -/
def inflate0 : List Nat → List Nat := fun _ => []

/-- Input whose header uses the extended section count convention
(shnum = 0, shoff = 52) but whose section 0 has a non-null type. -/
def srcW2 : ByteSource :=
  .ofList (elfHdr32 0 0 0 52 40 0 0 ++ sec32 0 1 0 0 0 65280 0 0 0 0)

/-- Like srcW2 but with shstrndx = SHN_XINDEX and section 0 link = 0xff00. -/
def srcW3 : ByteSource :=
  .ofList (elfHdr32 0 0 0 52 40 0 65535 ++ sec32 0 0 0 0 0 65280 65280 0 0 0)

/-- Input with phoff = 0 and phnum = 1: the program header is decoded from
the file header bytes themselves and the decode succeeds. -/
def srcC4 : ByteSource := .ofList (elfHdr32 0 1 32 0 0 0 0)

/-- Input with shoff = 0 and shnum = 1, which the header checks reject. -/
def srcW4a : ByteSource := .ofList (elfHdr32 0 0 0 0 0 1 0)

/-- A minimal valid input: one all-zero (null) section, no string table. -/
def srcW6 : ByteSource :=
  .ofList (elfHdr32 0 0 0 52 40 1 0 ++ sec32 0 0 0 0 0 0 0 0 0 0)

/-- A 64-bit input whose single program header has offset 2 ^ 63, negative
as an int64. -/
def srcW5 : ByteSource :=
  .ofList (elfHdr64 64 1 56 0 0 0 0 ++ prog64 1 0 (2 ^ 63) 0 0 0 0 0)

/-- Input whose section 1 is a string table carrying the compressed flag
with a non-zlib compression header: NewFile reaches shstr.Data and reads
through a nil reader. -/
def srcC1 : ByteSource :=
  .ofList (elfHdr32 0 0 0 52 40 2 1 ++ sec32 0 0 0 0 0 0 0 0 0 0 ++
           sec32 0 3 2048 0 132 12 0 0 0 0 ++ u32le 2 ++ u32le 5 ++ u32le 0)

/-- Input whose single section is of no-bits type, carries the compressed
flag and a non-zlib compression header. -/
def srcC10 : ByteSource :=
  .ofList (elfHdr32 0 0 0 52 40 1 0 ++ sec32 0 8 2048 0 92 12 0 0 0 0 ++
           u32le 2 ++ u32le 5 ++ u32le 0)

/-- A four-byte source used by the section accessor tests. -/
def srcSmall : ByteSource := .ofList [7, 8, 9, 10]

/-- The identification and header fields common to the 32-bit test inputs. -/
def fhW32 : FileHeader :=
  { eClass := 1, data := 1, version := 1, osabi := 0, abiVersion := 0,
    byteOrder := .lsb, typ := 2, machine := 3, entry := 0 }

/-- Decoded header of srcW2. -/
def hdrW2 : Hdr :=
  { fh := fhW32, phoff := 0, phentsize := 0, phnum := 0, shoff := 52,
    shentsize := 40, shnum := 0, shstrndx := 0, pos := 52 }

/-- Decoded header of srcW3. -/
def hdrW3 : Hdr :=
  { fh := fhW32, phoff := 0, phentsize := 0, phnum := 0, shoff := 52,
    shentsize := 40, shnum := 0, shstrndx := 65535, pos := 52 }

/-- Decoded header of srcW4a. -/
def hdrW4a : Hdr :=
  { fh := fhW32, phoff := 0, phentsize := 0, phnum := 0, shoff := 0,
    shentsize := 0, shnum := 1, shstrndx := 0, pos := 52 }

/-- Decoded header of srcW5. -/
def hdrW5 : Hdr :=
  { fh := { eClass := 2, data := 1, version := 1, osabi := 0, abiVersion := 0,
            byteOrder := .lsb, typ := 2, machine := 62, entry := 0 },
    phoff := 64, phentsize := 56, phnum := 1, shoff := 0, shentsize := 0,
    shnum := 0, shstrndx := 0, pos := 64 }

/-- Decoded header of srcW6. -/
def hdrW6 : Hdr :=
  { fh := fhW32, phoff := 0, phentsize := 0, phnum := 0, shoff := 52,
    shentsize := 40, shnum := 1, shstrndx := 0, pos := 52 }

/-- Section header 0 of srcW2 (non-null type, extended size field). -/
def rsW2 : RawSec :=
  { name := 0, typ := 1, flags := 0, addr := 0, off := 0, size := 65280,
    link := 0, info := 0, addralign := 0, entsize := 0 }

/-- Section header 0 of srcW3 (null type, extended size and link fields). -/
def rsW3 : RawSec :=
  { name := 0, typ := 0, flags := 0, addr := 0, off := 0, size := 65280,
    link := 65280, info := 0, addralign := 0, entsize := 0 }

/-- The single program header of srcW5, whose offset is negative as int64. -/
def phW5 : ProgHeader :=
  { typ := 1, flags := 0, off := 2 ^ 63, vaddr := 0, paddr := 0, filesz := 0,
    memsz := 0, align := 0 }

/-- The single (all-zero) decoded section of srcW6. -/
def secW6 : Section :=
  { name := [], typ := 0, flags := 0, addr := 0, offset := 0, size := 0,
    fileSize := 0, link := 0, info := 0, addralign := 0, entsize := 0,
    compressionType := 0, compressionOffset := 0 }

/-- The File produced by decoding srcW6. -/
def fW6 : File := { fh := fhW32, progs := [], sections := [secW6] }

/-- A no-bits section of logical size 5. -/
def sW8 : Section :=
  { name := [], typ := 8, flags := 0, addr := 0, offset := 0, size := 5,
    fileSize := 5, link := 0, info := 0, addralign := 0, entsize := 0,
    compressionType := 0, compressionOffset := 0 }

/-- An uncompressed section of declared size 10 whose on-disk range is
truncated by the four-byte source. -/
def sW9 : Section :=
  { name := [], typ := 1, flags := 0, addr := 0, offset := 0, size := 10,
    fileSize := 10, link := 0, info := 0, addralign := 0, entsize := 0,
    compressionType := 0, compressionOffset := 0 }

/-- The reader Section.Open yields for sW9. -/
def rW9 : Reader := .raw 0 10

/-- A compressed section with a non-zlib compression format tag. -/
def sW10 : Section :=
  { name := [], typ := 1, flags := 2048, addr := 0, offset := 0, size := 5,
    fileSize := 5, link := 0, info := 0, addralign := 0, entsize := 0,
    compressionType := 2, compressionOffset := 12 }

/-- Equality of two sections on every field except the resolved name: name
resolution never touches these. -/
def sameCore (a b : Section) : Prop :=
  a.typ = b.typ ∧ a.flags = b.flags ∧ a.addr = b.addr ∧ a.offset = b.offset ∧
  a.size = b.size ∧ a.fileSize = b.fileSize ∧ a.link = b.link ∧ a.info = b.info ∧
  a.addralign = b.addralign ∧ a.entsize = b.entsize ∧
  a.compressionType = b.compressionType ∧ a.compressionOffset = b.compressionOffset

/-- Invariant established for every section produced by the section header
loop: no name yet, offset and on-disk size non-negative as int64, and the
logical size comes from the on-disk size when uncompressed and from the
compression header decoded at the section start when compressed. -/
def SecInv (src : ByteSource) (hdr : Hdr) (s : Section) : Prop :=
  s.name = [] ∧ s.offset < 2 ^ 63 ∧ s.fileSize < 2 ^ 63 ∧
  (s.flags &&& 2048 = 0 → s.size = s.fileSize ∧ s.compressionType = 0) ∧
  (s.flags &&& 2048 ≠ 0 →
    ∃ ch, readChdr src hdr.fh.byteOrder hdr.fh.eClass s.offset s.fileSize = some ch ∧
      s.size = ch.size ∧ s.compressionType = ch.typ ∧
      s.compressionOffset = (chSize hdr.fh.eClass : Int))

theorem sameCore_refl (a : Section) : sameCore a a := by
  unfold sameCore; exact ⟨rfl, rfl, rfl, rfl, rfl, rfl, rfl, rfl, rfl, rfl, rfl, rfl⟩

theorem wrap64_eq_of_lt {n : Nat} (h : n < 2 ^ 63) : wrap64 (n : Int) = (n : Int) := by
  unfold wrap64; omega

theorem secAt_inv {src : ByteSource} {hdr : Hdr} {rp : Int} {s : Section} {nm : Nat}
    (h : secAt src hdr rp = some (s, nm)) : SecInv src hdr s := by
  unfold secAt at h
  cases hrr : readRawSec src hdr.fh.byteOrder hdr.fh.eClass rp with
  | none => rw [hrr] at h; exact absurd h (by simp)
  | some rs =>
    rw [hrr] at h
    simp at h
    obtain ⟨h1, h2, h3⟩ := h
    by_cases hf : rs.flags &&& 2048 = 0
    · rw [if_pos hf] at h3
      simp only [Option.some.injEq, Prod.mk.injEq] at h3
      obtain ⟨hs, _⟩ := h3
      subst hs
      refine ⟨rfl, ?_, ?_, fun _ => ⟨rfl, rfl⟩, fun hq => absurd hf hq⟩
      · show rs.off < 2 ^ 63
        omega
      · show rs.size < 2 ^ 63
        omega
    · rw [if_neg hf] at h3
      cases hch : readChdr src hdr.fh.byteOrder hdr.fh.eClass rs.off rs.size with
      | none => rw [hch] at h3; exact absurd h3 (by simp)
      | some ch =>
        rw [hch] at h3
        simp only [Option.some.injEq, Prod.mk.injEq] at h3
        obtain ⟨hs, _⟩ := h3
        subst hs
        refine ⟨rfl, ?_, ?_, fun hq => absurd hq hf, fun _ => ⟨ch, hch, rfl, rfl, rfl⟩⟩
        · show rs.off < 2 ^ 63
          omega
        · show rs.size < 2 ^ 63
          omega

theorem progAt_none_of_bad {src : ByteSource} {hdr : Hdr} {rp : Int} {ph : ProgHeader}
    (hread : readProg src hdr.fh.byteOrder hdr.fh.eClass rp = some ph)
    (hbad : 2 ^ 63 ≤ ph.off ∨ 2 ^ 63 ≤ ph.filesz) : progAt src hdr rp = none := by
  unfold progAt
  rw [hread]
  rcases hbad with h | h <;> simp <;> omega

theorem secAt_none_of_bad {src : ByteSource} {hdr : Hdr} {rp : Int} {rs : RawSec}
    (hread : readRawSec src hdr.fh.byteOrder hdr.fh.eClass rp = some rs)
    (hbad : 2 ^ 63 ≤ rs.off ∨ 2 ^ 63 ≤ rs.size) : secAt src hdr rp = none := by
  unfold secAt
  rw [hread]
  rcases hbad with h | h <;> simp <;> (intro h1 h2; exfalso; omega)

theorem parseSecsLoop_some_inv {src : ByteSource} {hdr : Hdr} :
    ∀ (fuel i : Nat) (pos : Int) (secs : List Section) (names : List Nat) (pf : Int),
      parseSecsLoop src hdr i fuel pos = some (secs, names, pf) →
      secs.length = fuel ∧ names.length = fuel ∧ ∀ s ∈ secs, SecInv src hdr s := by
  intro fuel
  induction fuel with
  | zero =>
    intro i pos secs names pf h
    simp only [parseSecsLoop, Option.some.injEq, Prod.mk.injEq] at h
    obtain ⟨h1, h2, _⟩ := h
    subst h1; subst h2
    simp
  | succ n ih =>
    intro i pos secs names pf h
    simp only [parseSecsLoop] at h
    cases hsa : secAt src hdr (if secSlotOff hdr i < 0 then pos else secSlotOff hdr i) with
    | none => rw [hsa] at h; exact absurd h (by simp)
    | some pr =>
      obtain ⟨s, nm⟩ := pr
      rw [hsa] at h
      cases hrec : parseSecsLoop src hdr (i + 1) n
          ((if secSlotOff hdr i < 0 then pos else secSlotOff hdr i) +
            (secSize hdr.fh.eClass : Int)) with
      | none => rw [hrec] at h; exact absurd h (by simp)
      | some tr =>
        obtain ⟨ss, ns, pf2⟩ := tr
        rw [hrec] at h
        simp only [Option.some.injEq, Prod.mk.injEq] at h
        obtain ⟨h1, h2, _⟩ := h
        subst h1; subst h2
        obtain ⟨l1, l2, linv⟩ := ih (i + 1) _ ss ns pf2 hrec
        refine ⟨by simp [l1], by simp [l2], ?_⟩
        intro x hx
        rcases List.mem_cons.mp hx with hx | hx
        · subst hx; exact secAt_inv hsa
        · exact linv x hx

theorem parseProgsLoop_none_of_bad {src : ByteSource} {hdr : Hdr} {i : Nat} {ph : ProgHeader}
    (hoff : 0 ≤ progSlotOff hdr i)
    (hread : readProg src hdr.fh.byteOrder hdr.fh.eClass (progSlotOff hdr i) = some ph)
    (hbad : 2 ^ 63 ≤ ph.off ∨ 2 ^ 63 ≤ ph.filesz) :
    ∀ (fuel start : Nat) (pos : Int), start ≤ i → i < start + fuel →
      parseProgsLoop src hdr start fuel pos = none := by
  intro fuel
  induction fuel with
  | zero => intro start pos h1 h2; omega
  | succ n ih =>
    intro start pos h1 h2
    simp only [parseProgsLoop]
    by_cases hs : start = i
    · subst hs
      have hnn : ¬progSlotOff hdr start < 0 := by omega
      rw [if_neg hnn, progAt_none_of_bad hread hbad]
    · cases hsa : progAt src hdr
          (if progSlotOff hdr start < 0 then pos else progSlotOff hdr start) with
      | none => simp [hsa]
      | some ph2 =>
        have hrec := ih (start + 1)
          ((if progSlotOff hdr start < 0 then pos else progSlotOff hdr start) +
            (progSize hdr.fh.eClass : Int)) (by omega) (by omega)
        simp [hsa, hrec]

theorem parseSecsLoop_none_of_bad {src : ByteSource} {hdr : Hdr} {i : Nat} {rs : RawSec}
    (hoff : 0 ≤ secSlotOff hdr i)
    (hread : readRawSec src hdr.fh.byteOrder hdr.fh.eClass (secSlotOff hdr i) = some rs)
    (hbad : 2 ^ 63 ≤ rs.off ∨ 2 ^ 63 ≤ rs.size) :
    ∀ (fuel start : Nat) (pos : Int), start ≤ i → i < start + fuel →
      parseSecsLoop src hdr start fuel pos = none := by
  intro fuel
  induction fuel with
  | zero => intro start pos h1 h2; omega
  | succ n ih =>
    intro start pos h1 h2
    simp only [parseSecsLoop]
    by_cases hs : start = i
    · subst hs
      have hnn : ¬secSlotOff hdr start < 0 := by omega
      rw [if_neg hnn, secAt_none_of_bad hread hbad]
    · cases hsa : secAt src hdr
          (if secSlotOff hdr start < 0 then pos else secSlotOff hdr start) with
      | none => simp [hsa]
      | some pr =>
        obtain ⟨s, nm⟩ := pr
        have hrec := ih (start + 1)
          ((if secSlotOff hdr start < 0 then pos else secSlotOff hdr start) +
            (secSize hdr.fh.eClass : Int)) (by omega) (by omega)
        simp [hsa, hrec]

theorem setNames_some {blob : List Nat} :
    ∀ (secs : List Section) (names : List Nat) (secs2 : List Section),
      setNames blob secs names = some secs2 →
      secs2.length = secs.length ∧
      ∀ i a, secs2.get? i = some a → ∃ b, secs.get? i = some b ∧ sameCore a b := by
  intro secs
  induction secs with
  | nil =>
    intro names secs2 h
    simp only [setNames, Option.some.injEq] at h
    subst h
    exact ⟨rfl, by intro i a ha; simp at ha⟩
  | cons s ss ih =>
    intro names secs2 h
    cases names with
    | nil => simp [setNames] at h
    | cons n ns =>
      simp only [setNames] at h
      cases hg : getString blob n with
      | none => rw [hg] at h; exact absurd h (by simp)
      | some nm =>
        rw [hg] at h
        cases hr : setNames blob ss ns with
        | none => rw [hr] at h; exact absurd h (by simp)
        | some rest =>
          rw [hr] at h
          simp only [Option.some.injEq] at h
          subst h
          obtain ⟨l1, l2⟩ := ih ns rest hr
          constructor
          · simp [l1]
          · intro i a ha
            cases i with
            | zero =>
              simp only [List.get?_cons_zero, Option.some.injEq] at ha
              subst ha
              refine ⟨s, by simp, ?_⟩
              unfold sameCore
              refine ⟨rfl, rfl, rfl, rfl, rfl, rfl, rfl, rfl, rfl, rfl, rfl, rfl⟩
            | succ j =>
              simp only [List.get?_cons_succ] at ha ⊢
              exact l2 j a ha

theorem setNames_none_of_bad {blob : List Nat} :
    ∀ (secs : List Section) (names : List Nat) (i : Nat),
      secs.length = names.length → i < names.length →
      getString blob (names.getD i 0) = none → setNames blob secs names = none := by
  intro secs
  induction secs with
  | nil =>
    intro names i hl hi hg
    cases names with
    | nil => simp at hi
    | cons n ns => simp at hl
  | cons s ss ih =>
    intro names i hl hi hg
    cases names with
    | nil => simp at hi
    | cons n ns =>
      cases i with
      | zero =>
        simp only [List.getD_cons_zero] at hg
        simp [setNames, hg]
      | succ j =>
        simp only [setNames]
        cases hgs : getString blob n with
        | none => rfl
        | some nm =>
          have hrec := ih ns j (by simpa using hl) (by simpa using hi)
            (by simpa using hg)
          simp [hgs, hrec]

theorem finishNames_ok {inflate : List Nat → List Nat} {src : ByteSource} {f : File}
    {names : List Nat} {ndx : Nat} {g : File}
    (h : finishNames inflate src f names ndx = .ok g) :
    g.fh = f.fh ∧ g.progs = f.progs ∧ g.sections.length = f.sections.length ∧
    ∀ i a, g.sections.get? i = some a → ∃ b, f.sections.get? i = some b ∧ sameCore a b := by
  unfold finishNames at h
  by_cases h0 : f.sections.length = 0
  · rw [if_pos h0] at h
    simp only [NFOut.ok.injEq] at h
    subst h
    exact ⟨rfl, rfl, rfl, fun i a ha => ⟨a, ha, sameCore_refl a⟩⟩
  · rw [if_neg h0] at h
    by_cases hn : ndx = 0
    · rw [if_pos hn] at h
      simp only [NFOut.ok.injEq] at h
      subst h
      exact ⟨rfl, rfl, rfl, fun i a ha => ⟨a, ha, sameCore_refl a⟩⟩
    · rw [if_neg hn] at h
      cases hget : f.sections.get? ndx with
      | none => rw [hget] at h; exact absurd h (by simp)
      | some shstr =>
        rw [hget] at h
        dsimp only at h
        by_cases ht : shstr.typ ≠ 3
        · rw [if_pos ht] at h; exact absurd h (by simp)
        · rw [if_neg ht] at h
          cases hd : Section.Data inflate src shstr with
          | ok blob =>
            rw [hd] at h
            dsimp only at h
            cases hsn : setNames blob f.sections names with
            | none => rw [hsn] at h; exact absurd h (by simp)
            | some secs2 =>
              rw [hsn] at h
              simp only [NFOut.ok.injEq] at h
              subst h
              obtain ⟨l1, l2⟩ := setNames_some f.sections names secs2 hsn
              exact ⟨rfl, rfl, by simpa using l1, by simpa using l2⟩
          | crash => rw [hd] at h; exact absurd h (by simp)

theorem newFile_ok_elim {inflate : List Nat → List Nat} {src : ByteSource} {f : File}
    (h : NewFile inflate src = .ok f) :
    ∃ f0 names ndx, preNames src = some (f0, names, ndx) ∧
      finishNames inflate src f0 names ndx = .ok f := by
  unfold NewFile at h
  cases hp : preNames src with
  | none => rw [hp] at h; exact absurd h (by simp)
  | some t =>
    obtain ⟨f0, names, ndx⟩ := t
    rw [hp] at h
    dsimp only at h
    exact ⟨f0, names, ndx, rfl, h⟩

theorem newFile_stages (inflate : List Nat → List Nat) (src : ByteSource) (hdr : Hdr)
    (hh : parseHeader src = some hdr) :
    NewFile inflate src =
      if checkHeader hdr = false then .fail
      else
        match parseProgsLoop src hdr 0 hdr.phnum hdr.pos with
        | none => .fail
        | some (progs, pos1) =>
          match resolveExt src hdr with
          | none => .fail
          | some (shnum2, ndx2) =>
            if 0 < shnum2 ∧ hdr.shentsize < wantShentsize hdr.fh.eClass then .fail
            else
              match parseSecsLoop src hdr 0 shnum2 (posAfterExt hdr pos1) with
              | none => .fail
              | some (secs, names, _) =>
                finishNames inflate src { fh := hdr.fh, progs := progs, sections := secs }
                  names ndx2 := by
  unfold NewFile preNames
  rw [hh]
  dsimp only
  by_cases hc : checkHeader hdr = false
  · simp [hc]
  · simp only [if_neg hc]
    cases hp : parseProgsLoop src hdr 0 hdr.phnum hdr.pos with
    | none => simp [hp]
    | some pr =>
      obtain ⟨progs, pos1⟩ := pr
      simp only [hp]
      cases hre : resolveExt src hdr with
      | none => simp [hre]
      | some t =>
        obtain ⟨shnum2, ndx2⟩ := t
        simp only [hre]
        by_cases hg : 0 < shnum2 ∧ hdr.shentsize < wantShentsize hdr.fh.eClass
        · simp [hg]
        · simp only [if_neg hg]
          cases hs : parseSecsLoop src hdr 0 shnum2 (posAfterExt hdr pos1) with
          | none => simp [hs]
          | some t2 =>
            obtain ⟨secs, names, pf⟩ := t2
            simp only [hs]

theorem preNames_elim {src : ByteSource} {f0 : File} {names : List Nat} {ndx : Nat}
    (h : preNames src = some (f0, names, ndx)) :
    ∃ hdr progs pos1 shnum2 pf,
      parseHeader src = some hdr ∧ checkHeader hdr = true ∧
      parseProgsLoop src hdr 0 hdr.phnum hdr.pos = some (progs, pos1) ∧
      resolveExt src hdr = some (shnum2, ndx) ∧
      ¬(0 < shnum2 ∧ hdr.shentsize < wantShentsize hdr.fh.eClass) ∧
      parseSecsLoop src hdr 0 shnum2 (posAfterExt hdr pos1) = some (f0.sections, names, pf) ∧
      f0.fh = hdr.fh ∧ f0.progs = progs := by
  unfold preNames at h
  cases hph : parseHeader src with
  | none => rw [hph] at h; exact absurd h (by simp)
  | some hdr =>
    rw [hph] at h
    dsimp only at h
    by_cases hc : checkHeader hdr = false
    · rw [if_pos hc] at h; exact absurd h (by simp)
    · rw [if_neg hc] at h
      have hct : checkHeader hdr = true := by revert hc; cases checkHeader hdr <;> simp
      cases hp : parseProgsLoop src hdr 0 hdr.phnum hdr.pos with
      | none => rw [hp] at h; exact absurd h (by simp)
      | some pr =>
        obtain ⟨progs, pos1⟩ := pr
        rw [hp] at h
        dsimp only at h
        cases hre : resolveExt src hdr with
        | none => rw [hre] at h; exact absurd h (by simp)
        | some t =>
          obtain ⟨shnum2, ndx2⟩ := t
          rw [hre] at h
          dsimp only at h
          by_cases hg : 0 < shnum2 ∧ hdr.shentsize < wantShentsize hdr.fh.eClass
          · rw [if_pos hg] at h; exact absurd h (by simp)
          · rw [if_neg hg] at h
            cases hs : parseSecsLoop src hdr 0 shnum2 (posAfterExt hdr pos1) with
            | none => rw [hs] at h; exact absurd h (by simp)
            | some t2 =>
              obtain ⟨secs, names2, pf⟩ := t2
              rw [hs] at h
              dsimp only at h
              simp only [Option.some.injEq, Prod.mk.injEq] at h
              obtain ⟨hf, hn, hx⟩ := h
              subst hf; subst hn; subst hx
              exact ⟨hdr, progs, pos1, shnum2, pf, rfl, hct, hp, hre, hg, hs, rfl, rfl⟩

theorem newFile_of_pre {inflate : List Nat → List Nat} {src : ByteSource} {f0 : File}
    {names : List Nat} {ndx : Nat} (hpre : preNames src = some (f0, names, ndx)) :
    NewFile inflate src = finishNames inflate src f0 names ndx := by
  unfold NewFile
  rw [hpre]

theorem resolveExt_ext {src : ByteSource} {hdr : Hdr} {rs : RawSec}
    (hso : 0 < hdr.shoff) (hsn : hdr.shnum = 0)
    (hrs : readRawSec src hdr.fh.byteOrder hdr.fh.eClass hdr.shoff = some rs) :
    resolveExt src hdr =
      if rs.typ ≠ 0 then none
      else if wrap64 rs.size < 65280 then none
      else if hdr.shstrndx = 65535 then
        if rs.link < 65280 then none else some ((wrap64 rs.size).toNat, rs.link)
      else some ((wrap64 rs.size).toNat, hdr.shstrndx) := by
  unfold resolveExt
  rw [if_pos (And.intro hso hsn), hrs]

theorem newFile_fail_of_ext_none {inflate : List Nat → List Nat} {src : ByteSource}
    {hdr : Hdr} (hh : parseHeader src = some hdr) (hre : resolveExt src hdr = none) :
    NewFile inflate src = .fail := by
  rw [newFile_stages inflate src hdr hh]
  by_cases hc : checkHeader hdr = false
  · simp [hc]
  · simp only [if_neg hc]
    cases hp : parseProgsLoop src hdr 0 hdr.phnum hdr.pos with
    | none => simp [hp]
    | some pr =>
      obtain ⟨progs, pos1⟩ := pr
      simp [hp, hre]

theorem finishNames_ok_strtab {inflate : List Nat → List Nat} {src : ByteSource}
    {f0 : File} {names : List Nat} {ndx : Nat} {g : File}
    (h : finishNames inflate src f0 names ndx = .ok g)
    (hlen : ¬f0.sections.length = 0) (hnz : ndx ≠ 0) :
    ∃ st, g.sections.get? ndx = some st ∧ st.typ = 3 := by
  unfold finishNames at h
  rw [if_neg hlen, if_neg hnz] at h
  cases hget : f0.sections.get? ndx with
  | none => rw [hget] at h; exact absurd h (by simp)
  | some shstr =>
    rw [hget] at h
    dsimp only at h
    by_cases ht : shstr.typ ≠ 3
    · rw [if_pos ht] at h; exact absurd h (by simp)
    · rw [if_neg ht] at h
      cases hd : Section.Data inflate src shstr with
      | crash => rw [hd] at h; exact absurd h (by simp)
      | ok blob =>
        rw [hd] at h
        dsimp only at h
        cases hsn : setNames blob f0.sections names with
        | none => rw [hsn] at h; exact absurd h (by simp)
        | some secs2 =>
          rw [hsn] at h
          simp only [NFOut.ok.injEq] at h
          subst h
          obtain ⟨hl, hcorr⟩ := setNames_some f0.sections names secs2 hsn
          obtain ⟨hlt, _⟩ := List.get?_eq_some.mp hget
          have hlt2 : ndx < secs2.length := by omega
          obtain ⟨a, ha⟩ : ∃ a, secs2.get? ndx = some a :=
            ⟨secs2.get ⟨ndx, hlt2⟩, List.get?_eq_get hlt2⟩
          obtain ⟨b, hb, hcore⟩ := hcorr ndx a ha
          rw [hget] at hb
          have hbs : shstr = b := Option.some.inj hb
          refine ⟨a, ha, ?_⟩
          rw [hcore.1, ← hbs]
          exact not_not.mp ht

set_option maxRecDepth 100000 in
/-- C1: the claim states that NewFile either returns a fully-populated File or
returns nothing (nil) and that every validation failure yields the no-object
outcome, with no unchecked crash.  The code violates this: on this input the
section-name string table carries the compressed flag with a non-zlib format
tag, so inside NewFile the call shstr.Data reads through the nil reader
returned by Open and the decode panics instead of returning nil. -/
theorem c1_newfile_crash_on_compressed_strtab :
    NewFile inflate0 srcC1 = .crash := by decide

/-- C2: when shoff > 0 and the header shnum is 0, the true section count is
taken from the size field of section header 0: decoding fails when that
header cannot be read, when its type is not the null type, or when the
recovered count is below the low-water mark 0xff00, and any successful decode
carries exactly the recovered number of sections. -/
theorem c2_extended_section_count (inflate : List Nat → List Nat) (src : ByteSource)
    (hdr : Hdr) (hh : parseHeader src = some hdr) (hso : 0 < hdr.shoff)
    (hsn : hdr.shnum = 0) :
    (readRawSec src hdr.fh.byteOrder hdr.fh.eClass hdr.shoff = none →
      NewFile inflate src = .fail)
    ∧ ∀ rs, readRawSec src hdr.fh.byteOrder hdr.fh.eClass hdr.shoff = some rs →
        (rs.typ ≠ 0 → NewFile inflate src = .fail)
        ∧ (wrap64 rs.size < 65280 → NewFile inflate src = .fail)
        ∧ ∀ f, NewFile inflate src = .ok f →
            f.sections.length = (wrap64 rs.size).toNat := by
  constructor
  · intro hnone
    apply newFile_fail_of_ext_none hh
    unfold resolveExt
    rw [if_pos (And.intro hso hsn), hnone]
  · intro rs hrs
    have hrx := resolveExt_ext hso hsn hrs
    refine ⟨?_, ?_, ?_⟩
    · intro hty
      exact newFile_fail_of_ext_none hh (by rw [hrx, if_pos hty])
    · intro hsz
      apply newFile_fail_of_ext_none hh
      rw [hrx]
      by_cases hty : rs.typ ≠ 0
      · rw [if_pos hty]
      · rw [if_neg hty, if_pos hsz]
    · intro f hok
      obtain ⟨f0, names, ndx, hpre, hfin⟩ := newFile_ok_elim hok
      obtain ⟨hdr2, progs, pos1, shnum2, pf, hph2, hct, hp, hre2, hg, hs, hfh, hpr⟩ :=
        preNames_elim hpre
      have hhdr : hdr = hdr2 := by rw [hh] at hph2; exact Option.some.inj hph2
      subst hhdr
      rw [hrx] at hre2
      by_cases hty : rs.typ ≠ 0
      · rw [if_pos hty] at hre2; exact absurd hre2 (by simp)
      · rw [if_neg hty] at hre2
        by_cases hsz : wrap64 rs.size < 65280
        · rw [if_pos hsz] at hre2; exact absurd hre2 (by simp)
        · rw [if_neg hsz] at hre2
          have hshnum : shnum2 = (wrap64 rs.size).toNat := by
            by_cases hxi : hdr.shstrndx = 65535
            · rw [if_pos hxi] at hre2
              by_cases hlk : rs.link < 65280
              · rw [if_pos hlk] at hre2; exact absurd hre2 (by simp)
              · rw [if_neg hlk] at hre2
                simp only [Option.some.injEq, Prod.mk.injEq] at hre2
                exact hre2.1.symm
            · rw [if_neg hxi] at hre2
              simp only [Option.some.injEq, Prod.mk.injEq] at hre2
              exact hre2.1.symm
          obtain ⟨l1, _, _⟩ := parseSecsLoop_some_inv shnum2 0 _ f0.sections names pf hs
          obtain ⟨_, _, lfin, _⟩ := finishNames_ok hfin
          rw [lfin, l1, hshnum]

/-- C2 witness: a concrete extended-count input whose section 0 has a
non-null type is rejected, through the theorem applied at that input. -/
theorem c2_extended_section_count_witness : NewFile inflate0 srcW2 = .fail :=
  ((c2_extended_section_count inflate0 srcW2 hdrW2 (by decide) (by decide)
      (by decide)).2 rsW2 (by decide)).1 (by decide)

/-- C3: in the extended-count situation, when the header string-table index
is the sentinel 0xffff the true index is the link field of section header 0:
decoding fails when that link is below 0xff00, and otherwise the resolved
index equals the link, the name-resolution stage is invoked with exactly that
index, and a successful decode has a string-table-typed section at it. -/
theorem c3_extended_strtab_index (inflate : List Nat → List Nat) (src : ByteSource)
    (hdr : Hdr) (rs : RawSec) (hh : parseHeader src = some hdr) (hso : 0 < hdr.shoff)
    (hsn : hdr.shnum = 0) (hxi : hdr.shstrndx = 65535)
    (hrs : readRawSec src hdr.fh.byteOrder hdr.fh.eClass hdr.shoff = some rs)
    (hty : rs.typ = 0) (hsz : 65280 ≤ wrap64 rs.size) :
    (rs.link < 65280 → NewFile inflate src = .fail)
    ∧ (65280 ≤ rs.link →
        resolveExt src hdr = some ((wrap64 rs.size).toNat, rs.link)
        ∧ (∀ f0 names ndx, preNames src = some (f0, names, ndx) →
            ndx = rs.link ∧
            NewFile inflate src = finishNames inflate src f0 names rs.link)
        ∧ ∀ f, NewFile inflate src = .ok f →
            ∃ st, f.sections.get? rs.link = some st ∧ st.typ = 3) := by
  have hrx := resolveExt_ext hso hsn hrs
  have hntyp : ¬rs.typ ≠ 0 := fun h => h hty
  have hnsz : ¬wrap64 rs.size < 65280 := by omega
  constructor
  · intro hlk
    exact newFile_fail_of_ext_none hh
      (by rw [hrx, if_neg hntyp, if_neg hnsz, if_pos hxi, if_pos hlk])
  · intro hlk
    have hnlk : ¬rs.link < 65280 := by omega
    have hre : resolveExt src hdr = some ((wrap64 rs.size).toNat, rs.link) := by
      rw [hrx, if_neg hntyp, if_neg hnsz, if_pos hxi, if_neg hnlk]
    refine ⟨hre, ?_, ?_⟩
    · intro f0 names ndx hpre
      obtain ⟨hdr2, progs, pos1, shnum2, pf, hph2, hct, hp, hre2, hg, hs, hfh, hpr⟩ :=
        preNames_elim hpre
      have hhdr : hdr = hdr2 := by rw [hh] at hph2; exact Option.some.inj hph2
      subst hhdr
      rw [hre] at hre2
      simp only [Option.some.injEq, Prod.mk.injEq] at hre2
      have hndx : ndx = rs.link := hre2.2.symm
      refine ⟨hndx, ?_⟩
      rw [newFile_of_pre hpre, hndx]
    · intro f hok
      obtain ⟨f0, names, ndx, hpre, hfin⟩ := newFile_ok_elim hok
      obtain ⟨hdr2, progs, pos1, shnum2, pf, hph2, hct, hp, hre2, hg, hs, hfh, hpr⟩ :=
        preNames_elim hpre
      have hhdr : hdr = hdr2 := by rw [hh] at hph2; exact Option.some.inj hph2
      subst hhdr
      rw [hre] at hre2
      simp only [Option.some.injEq, Prod.mk.injEq] at hre2
      obtain ⟨hsh, hnd⟩ := hre2
      obtain ⟨l1, _, _⟩ := parseSecsLoop_some_inv shnum2 0 _ f0.sections names pf hs
      have hlen : ¬f0.sections.length = 0 := by rw [l1]; omega
      have hnz : ndx ≠ 0 := by omega
      obtain ⟨st, hst, hst3⟩ := finishNames_ok_strtab hfin hlen hnz
      refine ⟨st, ?_, hst3⟩
      rw [hnd]
      exact hst

/-- C3 witness: a concrete extended-count input with the 0xffff sentinel and
section 0 link 0xff00 resolves the string-table index to that link, through
the theorem applied at that input. -/
theorem c3_extended_strtab_index_witness :
    resolveExt srcW3 hdrW3 = some ((wrap64 rsW3.size).toNat, rsW3.link) :=
  ((c3_extended_strtab_index inflate0 srcW3 hdrW3 rsW3 (by decide) (by decide)
      (by decide) (by decide) (by decide) (by decide) (by decide)).2 (by decide)).1

/-- C4 counterexample: the claim says decoding also fails when phoff = 0 with
phnum nonzero, but this input with phoff = 0 and phnum = 1 decodes
successfully: the code has no such check for the program header table. -/
theorem c4_zero_phoff_nonzero_phnum_decodes :
    (parseHeader srcC4).map (fun h => (h.phoff, h.phnum)) = some (0, 1)
    ∧ (NewFile inflate0 srcC4).isOk = true := by decide

/-- C4 amended: decoding fails whenever the section header table offset is
zero while the section count is non-zero; the code performs no analogous
check for the program header table. -/
theorem c4_section_table_zero_offset_fails (inflate : List Nat → List Nat)
    (src : ByteSource) (hdr : Hdr) (hh : parseHeader src = some hdr)
    (h0 : hdr.shoff = 0) (hn : hdr.shnum ≠ 0) : NewFile inflate src = .fail := by
  have hc : checkHeader hdr = false := by
    unfold checkHeader
    rw [if_neg (by omega : ¬hdr.shoff < 0)]
    by_cases hp : hdr.phoff < 0
    · rw [if_pos hp]
    · rw [if_neg hp, if_pos (And.intro h0 hn)]
  rw [newFile_stages inflate src hdr hh, if_pos hc]

/-- C4 witness: a concrete input with shoff = 0 and shnum = 1 is rejected,
through the amended theorem applied at that input. -/
theorem c4_section_table_zero_offset_fails_witness :
    NewFile inflate0 srcW4a = .fail :=
  c4_section_table_zero_offset_fails inflate0 srcW4a hdrW4a (by decide) (by decide)
    (by decide)

/-- C5: a program header slot or a section header slot whose decoded offset
or size field is negative when reinterpreted as a signed 64-bit integer makes
the whole decode fail, not merely that entry. -/
theorem c5_negative_entry_fails (inflate : List Nat → List Nat) (src : ByteSource)
    (hdr : Hdr) (hh : parseHeader src = some hdr) :
    (∀ i ph, i < hdr.phnum → 0 ≤ progSlotOff hdr i →
       readProg src hdr.fh.byteOrder hdr.fh.eClass (progSlotOff hdr i) = some ph →
       2 ^ 63 ≤ ph.off ∨ 2 ^ 63 ≤ ph.filesz → NewFile inflate src = .fail)
    ∧ (∀ shnum2 ndx2 i rs, resolveExt src hdr = some (shnum2, ndx2) → i < shnum2 →
       0 ≤ secSlotOff hdr i →
       readRawSec src hdr.fh.byteOrder hdr.fh.eClass (secSlotOff hdr i) = some rs →
       2 ^ 63 ≤ rs.off ∨ 2 ^ 63 ≤ rs.size → NewFile inflate src = .fail) := by
  constructor
  · intro i ph hi hoff hread hbad
    rw [newFile_stages inflate src hdr hh]
    by_cases hc : checkHeader hdr = false
    · simp [hc]
    · have hloop := parseProgsLoop_none_of_bad hoff hread hbad hdr.phnum 0 hdr.pos
        (by omega) (by omega)
      simp [if_neg hc, hloop]
  · intro shnum2 ndx2 i rs hre hi hoff hread hbad
    rw [newFile_stages inflate src hdr hh]
    by_cases hc : checkHeader hdr = false
    · simp [hc]
    · simp only [if_neg hc]
      cases hp : parseProgsLoop src hdr 0 hdr.phnum hdr.pos with
      | none => simp [hp]
      | some pr =>
        obtain ⟨progs, pos1⟩ := pr
        by_cases hg : 0 < shnum2 ∧ hdr.shentsize < wantShentsize hdr.fh.eClass
        · simp [hp, hre, hg]
        · have hloop := parseSecsLoop_none_of_bad hoff hread hbad shnum2 0
            (posAfterExt hdr pos1) (by omega) (by omega)
          simp [hp, hre, hg, hloop]

/-- C5 witness: a concrete 64-bit input whose single program header has
offset 2 ^ 63 is rejected, through the theorem applied at that input. -/
theorem c5_negative_entry_fails_witness : NewFile inflate0 srcW5 = .fail :=
  (c5_negative_entry_fails inflate0 srcW5 hdrW5 (by decide)).1 0 phW5 (by decide)
    (by decide) (by decide) (Or.inl (by decide))

/-- C6: every section of a successful decode has logical size equal to its
on-disk size when its flags do not include the compressed flag, and logical
size taken from the size field of the compression header decoded at the
section start when they do. -/
theorem c6_section_size_invariant (inflate : List Nat → List Nat) (src : ByteSource)
    (hdr : Hdr) (f : File) (hh : parseHeader src = some hdr)
    (hf : NewFile inflate src = .ok f) :
    ∀ s ∈ f.sections,
      (s.flags &&& 2048 = 0 → s.size = s.fileSize)
      ∧ (s.flags &&& 2048 ≠ 0 →
          ∃ ch, readChdr src hdr.fh.byteOrder hdr.fh.eClass s.offset s.fileSize = some ch ∧
            s.size = ch.size ∧ s.compressionType = ch.typ) := by
  obtain ⟨f0, names, ndx, hpre, hfin⟩ := newFile_ok_elim hf
  obtain ⟨hdr2, progs, pos1, shnum2, pf, hph2, hct, hp, hre2, hg, hs, hfh, hpr⟩ :=
    preNames_elim hpre
  have hhdr : hdr = hdr2 := by rw [hh] at hph2; exact Option.some.inj hph2
  subst hhdr
  obtain ⟨_, _, linv⟩ := parseSecsLoop_some_inv shnum2 0 _ f0.sections names pf hs
  obtain ⟨_, _, _, corr⟩ := finishNames_ok hfin
  intro s hmem
  obtain ⟨n, hn⟩ := List.mem_iff_get?.mp hmem
  obtain ⟨b, hb, hcore⟩ := corr n s hn
  have hbmem : b ∈ f0.sections := List.get?_mem hb
  obtain ⟨_, _, _, hunc, hcomp⟩ := linv b hbmem
  unfold sameCore at hcore
  obtain ⟨hety, hefl, _, heof, hesz, hefs, _, _, _, _, hect, _⟩ := hcore
  constructor
  · intro hflag
    rw [hefl] at hflag
    rw [hesz, hefs]
    exact (hunc hflag).1
  · intro hflag
    rw [hefl] at hflag
    obtain ⟨ch, hch, hchsz, hchty, _⟩ := hcomp hflag
    refine ⟨ch, ?_, ?_, ?_⟩
    · rw [heof, hefs]; exact hch
    · rw [hesz]; exact hchsz
    · rw [hect]; exact hchty

/-- C6 witness: the single uncompressed section of a concrete decoded input
has logical size equal to its on-disk size, through the theorem applied at
that input. -/
theorem c6_section_size_invariant_witness :
    NewFile inflate0 srcW6 = .ok fW6 ∧ secW6.size = secW6.fileSize :=
  ⟨by decide,
   (c6_section_size_invariant inflate0 srcW6 hdrW6 fW6 (by decide) (by decide) secW6
      (by decide)).1 (by decide)⟩

/-- C7: after the section headers are decoded into a non-empty list, a
string-table index of 0 makes the decode succeed with every name left empty;
a section at the index whose type is not the string-table type fails the
whole decode; and when the designated string table reads to a blob against
which some raw name offset is unresolvable, the whole decode fails. -/
theorem c7_strtab_name_resolution (inflate : List Nat → List Nat) (src : ByteSource)
    (f0 : File) (names : List Nat) (ndx : Nat)
    (hpre : preNames src = some (f0, names, ndx)) (hne : f0.sections ≠ []) :
    (ndx = 0 → NewFile inflate src = .ok f0 ∧ ∀ s ∈ f0.sections, s.name = [])
    ∧ (∀ st, ndx ≠ 0 → f0.sections.get? ndx = some st → st.typ ≠ 3 →
        NewFile inflate src = .fail)
    ∧ (∀ st blob, ndx ≠ 0 → f0.sections.get? ndx = some st → st.typ = 3 →
        Section.Data inflate src st = .ok blob →
        (∃ i, i < names.length ∧ getString blob (names.getD i 0) = none) →
        NewFile inflate src = .fail) := by
  have hnf : NewFile inflate src = finishNames inflate src f0 names ndx :=
    newFile_of_pre hpre
  have hlen0 : ¬f0.sections.length = 0 := by
    intro h; exact hne (List.length_eq_zero.mp h)
  refine ⟨?_, ?_, ?_⟩
  · intro h0
    constructor
    · rw [hnf]; unfold finishNames; rw [if_neg hlen0, if_pos h0]
    · obtain ⟨hdr2, progs, pos1, shnum2, pf, hph2, hct, hp, hre2, hg, hs, hfh, hpr⟩ :=
        preNames_elim hpre
      obtain ⟨_, _, linv⟩ := parseSecsLoop_some_inv shnum2 0 _ f0.sections names pf hs
      intro s hsmem
      exact (linv s hsmem).1
  · intro st hnz hget hty
    rw [hnf]; unfold finishNames
    rw [if_neg hlen0, if_neg hnz, hget]
    dsimp only
    rw [if_pos hty]
  · intro st blob hnz hget hty hdata hbad
    obtain ⟨i, hi, hgs⟩ := hbad
    rw [hnf]; unfold finishNames
    rw [if_neg hlen0, if_neg hnz, hget]
    dsimp only
    rw [if_neg (fun hcon => hcon hty), hdata]
    dsimp only
    have hlens : f0.sections.length = names.length := by
      obtain ⟨hdr2, progs, pos1, shnum2, pf, hph2, hct, hp, hre2, hg, hs, hfh, hpr⟩ :=
        preNames_elim hpre
      obtain ⟨l1, l2, _⟩ := parseSecsLoop_some_inv shnum2 0 _ f0.sections names pf hs
      rw [l1, l2]
    rw [setNames_none_of_bad f0.sections names i hlens hi hgs]

/-- C7 witness: a concrete input with a non-empty section list and
string-table index 0 decodes successfully with the names left empty, through
the theorem applied at that input. -/
theorem c7_strtab_name_resolution_witness : NewFile inflate0 srcW6 = .ok fW6 :=
  ((c7_strtab_name_resolution inflate0 srcW6 fW6 [0] 0 (by decide) (by decide)).1 rfl).1

/-- C8: a no-bits section of logical size S yields, through Open and through
Data, exactly S zero bytes no matter what the underlying source holds. -/
theorem c8_nobits_zero_fill (inflate : List Nat → List Nat) (src : ByteSource)
    (s : Section) (ht : s.typ = 8) (hs : s.size < 2 ^ 63) :
    Section.Open s = some (.zero (s.size : Int))
    ∧ Section.Data inflate src s = .ok (List.replicate s.size 0) := by
  have hop : Section.Open s = some (.zero (s.size : Int)) := by
    unfold Section.Open
    rw [if_pos ht, wrap64_eq_of_lt hs]
  refine ⟨hop, ?_⟩
  unfold Section.Data
  rw [if_neg (by omega : ¬2 ^ 63 ≤ s.size)]
  by_cases h0 : s.size = 0
  · rw [if_pos h0, h0]
    rfl
  · rw [if_neg h0, hop]
    dsimp only
    simp [streamBytes, List.take_replicate]

/-- C8 witness: the theorem applied at a concrete no-bits section of size 5
over a four-byte source holding nonzero bytes. -/
theorem c8_nobits_zero_fill_witness :
    Section.Open sW8 = some (.zero (sW8.size : Int))
    ∧ Section.Data inflate0 srcSmall sW8 = .ok (List.replicate sW8.size 0) :=
  c8_nobits_zero_fill inflate0 srcSmall sW8 (by decide) (by decide)

/-- C9: whenever Open yields a reader, Data reports no failure: it returns
the prefix of the stream that fits the logical size, of length at most that
size, even when the underlying range is truncated or unreadable. -/
theorem c9_data_never_fails (inflate : List Nat → List Nat) (src : ByteSource)
    (s : Section) (r : Reader) (ho : Section.Open s = some r) (hs : s.size < 2 ^ 63) :
    Section.Data inflate src s = .ok ((streamBytes inflate src r).take s.size)
    ∧ ((streamBytes inflate src r).take s.size).length ≤ s.size := by
  constructor
  · unfold Section.Data
    rw [if_neg (by omega : ¬2 ^ 63 ≤ s.size)]
    by_cases h0 : s.size = 0
    · rw [if_pos h0, h0]
      simp
    · rw [if_neg h0, ho]
  · rw [List.length_take]
    omega

/-- C9 witness: the theorem applied at a concrete uncompressed section of
declared size 10 over a four-byte source, which silently yields the four
available bytes. -/
theorem c9_data_never_fails_witness :
    Section.Data inflate0 srcSmall sW9 =
      .ok ((streamBytes inflate0 srcSmall rW9).take sW9.size)
    ∧ ((streamBytes inflate0 srcSmall rW9).take sW9.size).length ≤ sW9.size :=
  c9_data_never_fails inflate0 srcSmall sW9 rW9 (by decide) (by decide)

set_option maxRecDepth 100000 in
/-- C10 counterexample: the claim says every section whose flags mark it
compressed with a non-zlib format tag gets no reader from Open, but on this
decoded input the section is also of no-bits type, and the no-bits branch of
Open runs first: Open yields the synthetic zero reader, not nil. -/
theorem c10_nobits_compressed_open_not_nil :
    ((NewFile inflate0 srcC10).headSection).map
      (fun s => (s.typ, s.flags &&& 2048, s.compressionType, s.Open)) =
      some (8, 2048, 2, some (.zero 5)) := by decide

/-- C10 amended: for a section that is not of no-bits type, whose flags mark
it compressed, and whose compression format tag is not zlib, Open returns no
reader, and Data on such a section crashes whenever the logical size is
nonzero (with size zero no read is attempted and empty content is
returned). -/
theorem c10_nonzlib_compression (inflate : List Nat → List Nat) (src : ByteSource)
    (s : Section) (ht : s.typ ≠ 8) (hc : s.flags &&& 2048 ≠ 0)
    (hz : s.compressionType ≠ 1) :
    Section.Open s = none ∧ (s.size ≠ 0 → Section.Data inflate src s = .crash) := by
  have hop : Section.Open s = none := by
    unfold Section.Open
    rw [if_neg ht, if_neg hc, if_neg hz]
  refine ⟨hop, fun h0 => ?_⟩
  unfold Section.Data
  by_cases hb : 2 ^ 63 ≤ s.size
  · rw [if_pos hb]
  · rw [if_neg hb, if_neg h0, hop]

/-- C10 amended witness: the theorem applied at a concrete compressed
non-zlib, non-no-bits section: Data crashes. -/
theorem c10_nonzlib_compression_witness :
    Section.Data inflate0 srcSmall sW10 = .crash :=
  (c10_nonzlib_compression inflate0 srcSmall sW10 (by decide) (by decide)
    (by decide)).2 (by decide)

end ElfFile
